import Mathlib

/-!
Verification of the preloader repository: a shallow embedding of the
request-envelope codec, the stack-rewrite engine, the reaper, the pid-file
manager and the per-architecture patch/restore records, with theorems
settling the frozen claims about them.

Bytes are modelled as `Nat` values (< 256 where it matters); C strings are
`List Nat` without the terminating NUL; machine integers are `Nat`/`Int`
with explicit `% 2^w` where overflow matters.  An `int32_t` is represented
by its two's-complement bit pattern, a `Nat` below `2^32`; `toSigned`
recovers the signed value.
-/

namespace Preloader

/-! ### 32-bit big-endian codec (src/ipc.c msg_to_int32, src/client.c int32_to_msg) -/

/-- Signed interpretation of a 32-bit two's-complement pattern. -/
def toSigned (u : Nat) : Int :=
  if u < 2 ^ 31 then (u : Int) else (u : Int) - 2 ^ 32

/-- Bit pattern of an `Int` stored into an `int32_t` (conversion mod `2^32`). -/
def toPattern (v : Int) : Nat :=
  (v % 2 ^ 32).toNat

/-- `int32_to_msg` (src/client.c:61-68, identical copies in src/ipc.c:85-92 and
src/preloader_cli.c:66-73): big-endian encoding of an `int32_t`.  The C writes
`(uint8_t)(msg >> k)` for `k = 24,16,8,0`; on the two's-complement pattern
`u < 2^32` the arithmetic shift followed by the `uint8_t` truncation yields
exactly `u / 2^k % 256`. -/
def int32_to_msg (u : Nat) : List Nat :=
  [u / 2 ^ 24 % 256, u / 2 ^ 16 % 256, u / 2 ^ 8 % 256, u % 256]

/-- `msg_to_int32` (src/ipc.c:69-76, identical copies in src/client.c:78-85 and
src/preloader_cli.c:83-90): big-endian decoding.  The C ors together
`msg[3] << 0 | msg[2] << 8 | msg[1] << 16 | msg[0] << 24`; the byte ranges are
disjoint, so the resulting `int32_t` pattern is the sum below. -/
def msg_to_int32 (b0 b1 b2 b3 : Nat) : Nat :=
  (b3 % 256) + (b2 % 256) * 2 ^ 8 + (b1 % 256) * 2 ^ 16 + (b0 % 256) * 2 ^ 24

/-- Decode the first four bytes of a buffer, as the receiving code does with
four `next_byte` calls. -/
def msg_to_int32_list (b : List Nat) : Nat :=
  msg_to_int32 (b.getD 0 0) (b.getD 1 0) (b.getD 2 0) (b.getD 3 0)

/-! ### Request payload and the two client encoders -/

/-- Payload layout `CWD NUL argv[0] NUL ... argv[argc-1] NUL` built by both
clients with `strcpy`/`p += strlen(p)+1` (src/client.c:150-156,
src/preloader_cli.c:131-137). -/
def argvBlock (argv : List (List Nat)) : List Nat :=
  (argv.map (fun a => a ++ [0])).flatten

/-- The whole `cwd_argv` payload. -/
def payloadOf (cwd : List Nat) (argv : List (List Nat)) : List Nat :=
  cwd ++ [0] ++ argvBlock argv

/-- Byte count computed by the TCP client `prepare_data` (src/client.c:137-140):
`strlen(cwd) + sum of strlen(argv[i]) + argc + 1`; accumulated in a `uint32_t`,
hence the explicit `% 2^32`. -/
def client_amnt (cwd : List Nat) (argv : List (List Nat)) : Nat :=
  (cwd.length + (argv.map List.length).sum + argv.length + 1) % 2 ^ 32

/-- Byte count computed by the unix-socket client `prepare_data`
(src/preloader_cli.c:115-119): the same sum plus 8 header bytes. -/
def cli_amnt (cwd : List Nat) (argv : List (List Nat)) : Nat :=
  (cwd.length + (argv.map List.length).sum + argv.length + 1 + 8) % 2 ^ 32

/-- Bytes put on the wire by the TCP client (src/client.c:124-159 plus the
three `send_all` calls at src/client.c:389-393): `argc` header, `amt_bytes`
header, then the payload. -/
def client_message (cwd : List Nat) (argv : List (List Nat)) : List Nat :=
  int32_to_msg (argv.length % 2 ^ 32) ++ int32_to_msg (client_amnt cwd argv) ++
    payloadOf cwd argv

/-- Buffer built by the unix-socket client `prepare_data`
(src/preloader_cli.c:103-141): 8 header bytes followed by the payload, sent
as one `sendmsg` of `amnt` bytes. -/
def cli_message (cwd : List Nat) (argv : List (List Nat)) : List Nat :=
  int32_to_msg (argv.length % 2 ^ 32) ++ int32_to_msg (cli_amnt cwd argv) ++
    payloadOf cwd argv

/-! ### Receiver (src/ipc.c ipc_recv_msg) -/

/-- Take `n` bytes from the stream, failing (as a run of `next_byte` calls
does when `recv` hits end of stream) if fewer are available. -/
def readBytes (n : Nat) (s : List Nat) : Option (List Nat × List Nat) :=
  if n ≤ s.length then some (s.take n, s.drop n) else none

/-- `ipc_recv_msg` (src/ipc.c:284-352): reads the 4-byte big-endian `argc`,
the 4-byte big-endian `amnt_bytes`, then exactly `amnt_bytes` further bytes
into the `cwd_argv` buffer (`for (i = 0; i < amnt_bytes ...)`); `amnt_bytes`
is an `int32_t`, so a pattern at or above `2^31` is negative and the copy
loop body never runs.  Returns the `argc` pattern and the buffer. -/
def ipc_recv_msg (s : List Nat) : Option (Nat × List Nat) :=
  (readBytes 4 s).bind fun p1 =>
    (readBytes 4 p1.2).bind fun p2 =>
      (readBytes (toSigned (msg_to_int32_list p2.1)).toNat p2.2).bind fun p3 =>
        some (msg_to_int32_list p1.1, p3.1)

/-! ### Argv rewrite (src/preloader.c change_argv) -/

/-- The scanning loop of `change_argv` (src/preloader.c:162-169): walk the
buffer byte by byte, keeping the index `strt` of the current string and
emitting it each time a NUL is crossed, until `argc` slots are written.
`pos` is the index of the byte at the list head inside the whole buffer. -/
def scanStarts : List Nat → Nat → Nat → Nat → List Nat
  | _, 0, _, _ => []
  | [], _ + 1, _, _ => []
  | b :: rest, n + 1, pos, strt =>
    if b = 0 then strt :: scanStarts rest n (pos + 1) (pos + 1)
    else scanStarts rest (n + 1) (pos + 1) strt

/-- `change_argv` (src/preloader.c:151-171): skip the CWD up to and past its
NUL, then write `argc` argument pointers.  Pointers are modelled as byte
indices into `buf`; the final `sp[count] = NULL` terminator slot is implicit.
(The same loop appears in src/daem.c:120-139 and src/arch.c:179-200.) -/
def change_argv (argc : Nat) (buf : List Nat) : List Nat :=
  let c := (buf.takeWhile (fun b => b ≠ 0)).length
  scanStarts (buf.drop (c + 1)) argc (c + 1) (c + 1)

/-- The NUL-terminated string a rewritten slot points at. -/
def stringAt (buf : List Nat) (i : Nat) : List Nat :=
  (buf.drop i).takeWhile (fun b => b ≠ 0)

/-- Expected slot indices: argument `i` starts right after the CWD and the
`i` preceding arguments, each followed by its NUL. -/
def startsList : List (List Nat) → Nat → List Nat
  | [], _ => []
  | a :: rest, d => d :: startsList rest (d + a.length + 1)

/-! ### Exit-status translation (src/reaper.c wait_children) -/

/-- Glibc `WIFEXITED`: `(status & 0x7f) == 0`. -/
def wIFEXITED (s : Nat) : Bool :=
  s % 128 == 0

/-- Glibc `WEXITSTATUS`: `(status >> 8) & 0xff`. -/
def wEXITSTATUS (s : Nat) : Nat :=
  s / 256 % 256

/-- Glibc `WTERMSIG`: `status & 0x7f`. -/
def wTERMSIG (s : Nat) : Nat :=
  s % 128

/-- Glibc `WIFSIGNALED`: `((signed char)(((status & 0x7f) + 1) >> 1)) > 0`;
the cast keeps the low 8 bits and reinterprets them signed, and the shift of
the signed char is arithmetic, i.e. a floor division by 2. -/
def wIFSIGNALED (s : Nat) : Bool :=
  let x := (s % 128 + 1) % 256
  let sc : Int := if x < 128 then (x : Int) else (x : Int) - 256
  decide (0 < Int.fdiv sc 2)

/-- Exit-status translation of `wait_children` (src/reaper.c:165-171). -/
def reaper_status (s : Nat) : Nat :=
  if wIFEXITED s then wEXITSTATUS s
  else if wIFSIGNALED s then wTERMSIG s + 128
  else 1

/-- The ways a wait status can arise for a reaped child. -/
inductive ChildEvent where
  | exited (code : Nat)
  | signaled (sig : Nat) (core : Bool)
  | stopped (sig : Nat)
  | continued
deriving DecidableEq

/-- Linux encoding of a wait status: normal exit is `code << 8`; signal death
is `sig`, with bit `0x80` set when a core was dumped; a stop is
`(sig << 8) | 0x7f`; a continue is `0xffff`. -/
def kernel_status : ChildEvent → Nat
  | .exited code => code % 256 * 256
  | .signaled sig core => sig + (if core then 128 else 0)
  | .stopped sig => sig % 256 * 256 + 127
  | .continued => 65535

/-- The code the spec says the reaper must send for each kind of event. -/
def spec_status : ChildEvent → Nat
  | .exited code => code % 256
  | .signaled sig _ => 128 + sig
  | .stopped _ => 1
  | .continued => 1

/-- Events the kernel can actually deliver: a terminating signal is one of
the Linux signals `1..64`. -/
def validEvent : ChildEvent → Prop
  | .signaled sig _ => 1 ≤ sig ∧ sig ≤ 64
  | _ => True

/-! ### Re-entry argc check (src/preloader.c pre_daemon_main, src/arch.c) -/

/-- `arch_validate_argc` (src/arch.c:238-243) dies exactly on this
condition. -/
def arch_validate_argc_dies (old_argc new_argc : Int) : Bool :=
  decide (old_argc < new_argc)

/-- The argc/argv rewrite step of `pre_daemon_main`
(src/preloader.c:209-217): `sp` is the located startup frame
(`IDX_ARGC = 3`, `IDX_ARGV = 4`); abort (`none`) when the original argc slot
is below the new argc, otherwise store the new argc and compute the argv
slots `change_argv` writes at `sp[4..]`. -/
def pre_daemon_reentry (sp : List Int) (newArgc : Nat) (buf : List Nat) :
    Option (List Int × List Nat) :=
  if sp.getD 3 0 < (newArgc : Int) then none
  else some (sp.set 3 (newArgc : Int), change_argv newArgc buf)

/-! ### RWX patch region (src/arch.c make_rwx, identical in src/preloader.c
and src/daem.c) -/

/-- `make_rwx` (src/arch.c:66-86): `aligned_addr = p & ~(page_size - 1)` is
`p` rounded down to a multiple of the power-of-two `page_size`; the region
is one page, or two when `p - aligned_addr < min_size`.  Returns the start
and the length of the `mprotect`ed region. -/
def make_rwx_region (p min_size page_size : Nat) : Nat × Nat :=
  let aligned_addr := p / page_size * page_size
  let target_size := if p - aligned_addr < min_size then page_size * 2 else page_size
  (aligned_addr, target_size)

/-! ### Per-architecture patch records (src/arch/arch_x86_64.c,
arch_i386.c, arch_arm.c, arch_riscv.c) -/

inductive Arch where
  | x86_64
  | i386
  | arm
  | riscv
deriving DecidableEq

/-- The literal stub byte arrays `patch[]` of the four arch files (address
words still zero, as declared). -/
def patch : Arch → List Nat
  | .x86_64 => [0x48, 0xb8, 0, 0, 0, 0, 0, 0, 0, 0, 0xff, 0xd0]
  | .i386 => [0xb8, 0, 0, 0, 0, 0xff, 0xd0]
  | .arm => [0x00, 0x10, 0x9f, 0xe5, 0x31, 0xff, 0x2f, 0xe1, 0, 0, 0, 0]
  | .riscv => [0x97, 0x05, 0x00, 0x00, 0x8c, 0x65, 0x82, 0x95,
      0, 0, 0, 0, 0, 0, 0, 0]

/-- Size of the address word the stub embeds after its instructions: none on
x86-64 and i386; the 4-byte word `ldr r1, [pc]` reads on ARM32
(src/arch/arch_arm.c:64 subtracts 4); the 8-byte word `ld a1, 8(a1)` reads
on RISC-V (src/arch/arch_riscv.c:68 subtracts 8). -/
def embedded_word : Arch → Nat
  | .x86_64 => 0
  | .i386 => 0
  | .arm => 4
  | .riscv => 8

/-- Byte offset, inside the stub, of the instruction following the
branch-and-link: the saved return address is `entry + link_offset`.  On
x86-64 `callq *%rax` ends the 12-byte stub; on i386 `call *%eax` ends the
7-byte stub; on ARM32 `blx r1` occupies bytes 4-7 so `lr = entry + 8`; on
RISC-V the compressed `jalr a1` occupies bytes 6-7 so `ra = entry + 8`. -/
def link_offset : Arch → Nat
  | .x86_64 => 12
  | .i386 => 7
  | .arm => 8
  | .riscv => 8

/-- Overwrite `bytes.length` bytes of `mem` starting at `addr`. -/
def memWrite (mem : List Nat) (addr : Nat) (bytes : List Nat) : List Nat :=
  mem.take addr ++ bytes ++ mem.drop (addr + bytes.length)

/-- `arch_restore_start` of each arch file: `memcpy` the saved bytes `bck`
back over the entrypoint and return the stub size minus the embedded
address-word size. -/
def arch_restore_start (a : Arch) (mem : List Nat) (addr : Nat)
    (bck : List Nat) : List Nat × Nat :=
  (memWrite mem addr bck, (patch a).length - embedded_word a)

/-! ### PID file manager (src/util.c read_and_check_pid, src/preloader.c
my_init) -/

/-- Outcome of the pid-file check. -/
inductive PidAction where
  | decline
  | unlinkProceed
  | proceed
deriving DecidableEq

/-- ASCII decimal digit. -/
def isdigitByte (b : Nat) : Bool :=
  48 ≤ b && b ≤ 57

/-- Value of a digit string, accumulated as the C loop does
(`pid = pid * 10 + (buff[i] - '0')`). -/
def parsePidDigits (l : List Nat) : Nat :=
  l.foldl (fun acc b => acc * 10 + (b - 48)) 0

/-- `read_and_check_pid` (src/util.c:73-122).  `content` is `none` when
`open` fails (no pid file), `some none` when `read` fails, and
`some (some bytes)` for readable content — of which `read(fd, buff, 16)`
yields at most the first 16 bytes (`char buff[16]`).  Each read byte must be
a decimal digit, else the file is unlinked; the accumulated pid is probed
with signal 0 (the `alive` oracle): alive means decline (return 0), dead
means unlink and proceed. -/
def read_and_check_pid (content : Option (Option (List Nat)))
    (alive : Nat → Bool) : PidAction :=
  match content with
  | none => .proceed
  | some none => .unlinkProceed
  | some (some bytes) =>
    let buff := bytes.take 16
    if buff.all isdigitByte then
      if alive (parsePidDigits buff) then .decline else .unlinkProceed
    else .unlinkProceed

/-- `my_init` (src/preloader.c:409-456) returns without writing the pid file
exactly when `read_and_check_pid` returned 0; otherwise it goes on to
`create_pid`. -/
def my_init_writes_pid (content : Option (Option (List Nat)))
    (alive : Nat → Bool) : Bool :=
  decide (read_and_check_pid content alive ≠ .decline)

/-! ### Reaper child list (src/reaper.c) -/

structure Child where
  fd : Int
  pid : Int
deriving DecidableEq, Repr

/-- Children list: `size`, `last_empty` hint and the slot array
(`cl.c.length = cl.size` when well formed). -/
structure ChildList where
  size : Nat
  lastEmpty : Nat
  c : List Child
deriving DecidableEq, Repr

/-- One iteration of the clearing loop of `increase_buffer`
(src/reaper.c:209-210): the body is `c->fd = -1`, i.e. it writes slot 0 of
the reallocated array on every iteration. -/
def clearLoopStep (l : List Child) : List Child :=
  match l with
  | [] => []
  | x :: rest => { x with fd := -1 } :: rest

/-- `increase_buffer` (src/reaper.c:198-215): `realloc` doubles the array —
the new cells hold indeterminate bytes, modelled by the `junk` list of
length `cl.size` — then the loop `for (i = 0; i < cl.size; i++) c->fd = -1;`
runs, `last_empty` becomes the old size and `size` doubles. -/
def increase_buffer (cl : ChildList) (junk : List Child) : ChildList :=
  let arr := cl.c ++ junk
  let arr := (List.range cl.size).foldl (fun acc _ => clearLoopStep acc) arr
  { size := cl.size * 2, lastEmpty := cl.size, c := arr }

/-- `reaper_add_child` (src/reaper.c:223-254): take `last_empty` if it is a
valid free slot; otherwise scan for the first `fd == -1` slot; otherwise
grow the buffer and take its `last_empty`.  Store the pair there and set
`last_empty = pos + 1`. -/
def reaper_add_child (cl : ChildList) (junk : List Child) (pid fd : Int) :
    ChildList :=
  let pos := cl.lastEmpty
  let chosen : ChildList × Nat :=
    if pos ≥ cl.size then
      match cl.c.findIdx? (fun ch => ch.fd == -1) with
      | some i => (cl, i)
      | none =>
        let grown := increase_buffer cl junk
        (grown, grown.lastEmpty)
    else if (cl.c.getD pos ⟨0, 0⟩).fd ≠ -1 then
      match cl.c.findIdx? (fun ch => ch.fd == -1) with
      | some i => (cl, i)
      | none =>
        let grown := increase_buffer cl junk
        (grown, grown.lastEmpty)
    else (cl, pos)
  { size := chosen.1.size
    lastEmpty := chosen.2 + 1
    c := chosen.1.c.set chosen.2 { fd := fd, pid := pid } }

/-! ### Port configuration (src/preloader.c parse_args, src/util.c str2int,
src/ipc.h SV_DEFAULT_PORT) -/

/-- C `isspace` over the default locale. -/
def isspaceByte (b : Nat) : Bool :=
  b == 32 || (9 ≤ b && b ≤ 13)

/-- Numeric value of a digit run, shared by the code model and the spec
predicate. -/
def digitsValue (l : List Nat) : Int :=
  l.foldl (fun acc c => acc * 10 + ((c : Int) - 48)) 0

/-- Optional leading `-` (45) or `+` (43) sign, as `strtol` consumes it;
returns the negativity flag and the remainder. -/
def signSplit (s : List Nat) : Bool × List Nat :=
  match s with
  | [] => (false, s)
  | c :: r => if c = 45 then (true, r) else if c = 43 then (false, r) else (false, s)

/-- `strtol(s, &end, 10)`: skip whitespace, take an optional sign, consume a
digit run.  Returns the mathematical value (the real function clamps to
`LONG_MAX`/`LONG_MIN` setting `ERANGE`; `str2int` rejects every clamped case
and every value outside `int` range alike, so the unbounded value makes the
same accept/reject decision on an LP64 target) and the unconsumed suffix
(`end`); when no digit is consumed `end` is reset to the whole input. -/
def strtol10 (s : List Nat) : Int × List Nat :=
  let s1 := s.dropWhile isspaceByte
  let signed := signSplit s1
  let digits := signed.2.takeWhile isdigitByte
  let rest := signed.2.dropWhile isdigitByte
  if digits.isEmpty then (0, s)
  else ((if signed.1 then -digitsValue digits else digitsValue digits), rest)

/-- `str2int` (src/util.c:164-183): reject when `s[0] == '\0'` (the modelled
byte list is empty) or `isspace(s[0])`; convert with `strtol`; reject values
outside `int` range and any trailing character (`*end != '\0'`). -/
def str2int (s : List Nat) : Option Int :=
  if s = [] ∨ isspaceByte (s.headD 0) then none
  else
    let r := strtol10 s
    if r.1 > 2147483647 then none
    else if r.1 < -2147483648 then none
    else if r.2 ≠ [] then none
    else some r.1

/-- The port check of `parse_args` (src/preloader.c:326-333) with
`SV_DEFAULT_PORT = 3636` (src/ipc.h:30): an unset `PRELOADER_PORT` keeps the
default; a set value must satisfy `str2int` and lie in `[0, 65535]`, else
`die` (`none`). -/
def parse_port (env : Option (List Nat)) : Option Int :=
  match env with
  | none => some 3636
  | some s =>
    match str2int s with
    | none => none
    | some v => if v < 0 ∨ v > 65535 then none else some v

/-- Spec-side reading of the `PRELOADER_PORT` sentence: the value is a
decimal integer — an optional sign followed by at least one digit and
nothing else (hence no leading whitespace and no trailing characters). -/
def spec_decimal (s : List Nat) : Option Int :=
  let signed := signSplit s
  if signed.2 ≠ [] ∧ signed.2.all isdigitByte then
    some (if signed.1 then -digitsValue signed.2 else digitsValue signed.2)
  else none

/-! ## Helper lemmas -/

theorem toPattern_lt (v : Int) : toPattern v < 2 ^ 32 := by
  unfold toPattern
  omega

theorem toSigned_toPattern (v : Int) (h1 : -2 ^ 31 ≤ v) (h2 : v < 2 ^ 31) :
    toSigned (toPattern v) = v := by
  unfold toSigned toPattern
  omega

theorem decode_encode (u : Nat) (h : u < 2 ^ 32) :
    msg_to_int32_list (int32_to_msg u) = u := by
  unfold msg_to_int32_list int32_to_msg msg_to_int32
  simp only [List.getD_cons_zero, List.getD_cons_succ]
  omega

theorem encode_decode (b0 b1 b2 b3 : Nat) (h0 : b0 < 256) (h1 : b1 < 256)
    (h2 : b2 < 256) (h3 : b3 < 256) :
    int32_to_msg (msg_to_int32 b0 b1 b2 b3) = [b0, b1, b2, b3] := by
  unfold int32_to_msg msg_to_int32
  simp only [List.cons.injEq, and_true]
  refine ⟨?_, ?_, ?_, ?_⟩ <;> omega

theorem int32_to_msg_length (u : Nat) : (int32_to_msg u).length = 4 := rfl

theorem argvBlock_cons (a : List Nat) (rest : List (List Nat)) :
    argvBlock (a :: rest) = a ++ 0 :: argvBlock rest := by
  simp [argvBlock]

theorem argvBlock_length (argv : List (List Nat)) :
    (argvBlock argv).length = (argv.map List.length).sum + argv.length := by
  induction argv with
  | nil => rfl
  | cons a rest ih =>
    rw [argvBlock_cons, List.length_append, List.length_cons, ih]
    simp only [List.map_cons, List.sum_cons, List.length_cons]
    omega

theorem payloadOf_length (cwd : List Nat) (argv : List (List Nat)) :
    (payloadOf cwd argv).length =
      cwd.length + (argv.map List.length).sum + argv.length + 1 := by
  simp only [payloadOf, List.length_append, argvBlock_length, List.length_cons,
    List.length_nil]
  omega

theorem readBytes_exact (a rest : List Nat) (n : Nat) (h : a.length = n) :
    readBytes n (a ++ rest) = some (a, rest) := by
  subst h
  simp [readBytes, List.take_left, List.drop_left]

theorem takeWhile_append_stop (p : Nat → Bool) (a : List Nat) (b : Nat)
    (t : List Nat) (ha : ∀ x ∈ a, p x = true) (hb : p b = false) :
    (a ++ b :: t).takeWhile p = a := by
  induction a with
  | nil => simp [List.takeWhile_cons, hb]
  | cons x xs ih =>
    have hx : p x = true := ha x (by simp)
    simp only [List.cons_append, List.takeWhile_cons, hx, if_true]
    rw [ih (fun y hy => ha y (by simp [hy]))]

theorem scanStarts_string (a : List Nat) :
    ∀ (t : List Nat) (n pos strt : Nat), (0 : Nat) ∉ a →
      scanStarts (a ++ 0 :: t) (n + 1) pos strt =
        strt :: scanStarts t n (pos + a.length + 1) (pos + a.length + 1) := by
  induction a with
  | nil =>
    intro t n pos strt _
    simp [scanStarts]
  | cons x xs ih =>
    intro t n pos strt ha
    have hx : x ≠ 0 := by
      intro hx0
      exact ha (hx0 ▸ List.mem_cons_self x xs)
    have hxs : (0 : Nat) ∉ xs := fun h => ha (List.mem_cons_of_mem x h)
    simp only [List.cons_append, scanStarts, if_neg hx, List.append_eq]
    rw [ih t n (pos + 1) strt hxs]
    have h1 : pos + 1 + xs.length + 1 = pos + (x :: xs).length + 1 := by
      simp only [List.length_cons]
      omega
    rw [h1]

theorem scanStarts_block (argv : List (List Nat)) :
    ∀ d : Nat, (∀ a ∈ argv, (0 : Nat) ∉ a) →
      scanStarts (argvBlock argv) argv.length d d = startsList argv d := by
  induction argv with
  | nil =>
    intro d _
    rfl
  | cons a rest ih =>
    intro d h
    have ha : (0 : Nat) ∉ a := h a (by simp)
    have hrest : ∀ x ∈ rest, (0 : Nat) ∉ x := fun x hx => h x (by simp [hx])
    rw [argvBlock_cons, List.length_cons,
      scanStarts_string a (argvBlock rest) rest.length d d ha,
      ih _ hrest]
    rfl

theorem startsList_length (argv : List (List Nat)) (d : Nat) :
    (startsList argv d).length = argv.length := by
  induction argv generalizing d with
  | nil => rfl
  | cons a rest ih => simp [startsList, ih]

theorem stringAt_startsList (argv : List (List Nat)) :
    ∀ (pre : List Nat) (i : Nat), (∀ a ∈ argv, (0 : Nat) ∉ a) →
      i < argv.length →
      stringAt (pre ++ argvBlock argv) ((startsList argv pre.length).getD i 0) =
        argv.getD i [] := by
  induction argv with
  | nil =>
    intro pre i _ hi
    simp at hi
  | cons a rest ih =>
    intro pre i h hi
    have ha : (0 : Nat) ∉ a := h a (by simp)
    have hrest : ∀ x ∈ rest, (0 : Nat) ∉ x := fun x hx => h x (by simp [hx])
    cases i with
    | zero =>
      rw [argvBlock_cons]
      simp only [startsList, List.getD_cons_zero, stringAt]
      rw [List.drop_left]
      exact takeWhile_append_stop _ a 0 (argvBlock rest)
        (fun x hx => by
          simp only [decide_eq_true_eq, ne_eq]
          intro h0
          exact ha (h0 ▸ hx))
        (by simp)
    | succ j =>
      have hj : j < rest.length := by
        simpa using hi
      have key := ih (pre ++ (a ++ [0])) j hrest hj
      have hlen : (pre ++ (a ++ [0])).length = pre.length + a.length + 1 := by
        simp only [List.length_append, List.length_cons, List.length_nil]
        omega
      rw [hlen] at key
      have hbuf : (pre ++ (a ++ [0])) ++ argvBlock rest =
          pre ++ argvBlock (a :: rest) := by
        rw [argvBlock_cons]
        simp
      rw [hbuf] at key
      simpa only [startsList, List.getD_cons_succ] using key

theorem toSigned_small (u : Nat) (h : u < 2 ^ 31) : toSigned u = (u : Int) := by
  unfold toSigned
  omega

theorem readBytes_all (s : List Nat) (n : Nat) (h : s.length = n) :
    readBytes n s = some (s, []) := by
  simp [readBytes, h.symm]

theorem ipc_recv_client (cwd : List Nat) (argv : List (List Nat))
    (hargc : argv.length < 2 ^ 31)
    (hamnt : cwd.length + (argv.map List.length).sum + argv.length + 1 < 2 ^ 31) :
    ipc_recv_msg (client_message cwd argv) =
      some (argv.length, payloadOf cwd argv) := by
  have hargc32 : argv.length % 2 ^ 32 = argv.length := Nat.mod_eq_of_lt (by omega)
  have hamnt32 : client_amnt cwd argv =
      cwd.length + (argv.map List.length).sum + argv.length + 1 := by
    unfold client_amnt
    omega
  have hassoc : client_message cwd argv =
      int32_to_msg (argv.length % 2 ^ 32) ++
        (int32_to_msg (client_amnt cwd argv) ++ payloadOf cwd argv) := by
    unfold client_message
    rw [List.append_assoc]
  unfold ipc_recv_msg
  rw [hassoc, readBytes_exact _ _ 4 (int32_to_msg_length _)]
  simp only [Option.some_bind]
  rw [readBytes_exact _ _ 4 (int32_to_msg_length _)]
  simp only [Option.some_bind]
  rw [decode_encode _ (by omega), decode_encode _ (by omega),
    hargc32, hamnt32, toSigned_small _ (by omega)]
  simp only [Int.toNat_natCast]
  rw [readBytes_all _ _ (by rw [payloadOf_length])]
  simp only [Option.some_bind]

theorem payloadOf_assoc (cwd : List Nat) (argv : List (List Nat)) :
    payloadOf cwd argv = (cwd ++ [0]) ++ argvBlock argv := by
  unfold payloadOf
  simp

theorem takeWhile_payload (cwd : List Nat) (argv : List (List Nat))
    (hcwd : (0 : Nat) ∉ cwd) :
    (payloadOf cwd argv).takeWhile (fun b => b ≠ 0) = cwd := by
  unfold payloadOf
  rw [List.append_assoc, List.singleton_append]
  exact takeWhile_append_stop _ cwd 0 (argvBlock argv)
    (fun x hx => by
      simp only [decide_eq_true_eq, ne_eq]
      intro h0
      exact hcwd (h0 ▸ hx))
    (by simp)

theorem change_argv_spec (cwd : List Nat) (argv : List (List Nat))
    (hcwd : (0 : Nat) ∉ cwd) (hargv : ∀ a ∈ argv, (0 : Nat) ∉ a) :
    change_argv argv.length (payloadOf cwd argv) =
      startsList argv (cwd.length + 1) := by
  unfold change_argv
  rw [takeWhile_payload cwd argv hcwd, payloadOf_assoc]
  have hdrop : ((cwd ++ [0]) ++ argvBlock argv).drop (cwd.length + 1) =
      argvBlock argv := by
    have h1 : (cwd ++ [0]).length = cwd.length + 1 := by simp
    rw [← h1, List.drop_left]
  show scanStarts (((cwd ++ [0]) ++ argvBlock argv).drop (cwd.length + 1))
      argv.length (cwd.length + 1) (cwd.length + 1) =
    startsList argv (cwd.length + 1)
  rw [hdrop, scanStarts_block argv (cwd.length + 1) hargv]

theorem wIFSIGNALED_eq (s : Nat) :
    wIFSIGNALED s = (decide (1 ≤ s % 128) && decide (s % 128 ≤ 126)) := by
  have hm : s % 128 < 128 := Nat.mod_lt _ (by norm_num)
  unfold wIFSIGNALED
  generalize s % 128 = m at hm ⊢
  interval_cases m <;> decide

theorem msg_to_int32_list_cons4 (x0 x1 x2 x3 : Nat) (t : List Nat) :
    msg_to_int32_list (x0 :: x1 :: x2 :: x3 :: t) = msg_to_int32 x0 x1 x2 x3 := by
  simp [msg_to_int32_list, List.getD_cons_zero, List.getD_cons_succ]

theorem decode_encode_prefix (u : Nat) (t : List Nat) (h : u < 2 ^ 32) :
    msg_to_int32_list (int32_to_msg u ++ t) = u := by
  have hform : int32_to_msg u ++ t =
      (u / 2 ^ 24 % 256) :: (u / 2 ^ 16 % 256) :: (u / 2 ^ 8 % 256) ::
        (u % 256) :: t := rfl
  rw [hform, msg_to_int32_list_cons4]
  unfold msg_to_int32
  omega

/-! ## Claim theorems -/

/-- C10: big-endian int32 codec round-trip.  For every 32-bit signed integer
`v`, decoding the encoding of `v` gives back `v`, and for every 4-byte buffer,
re-encoding the decoded value writes the buffer back unchanged (arithmetic
taken modulo `2^32` via the pattern representation). -/
theorem c10_int32_codec_roundtrip (v : Int) (hv1 : -2 ^ 31 ≤ v)
    (hv2 : v < 2 ^ 31) (b0 b1 b2 b3 : Nat) (h0 : b0 < 256) (h1 : b1 < 256)
    (h2 : b2 < 256) (h3 : b3 < 256) :
    toSigned (msg_to_int32_list (int32_to_msg (toPattern v))) = v ∧
    int32_to_msg (msg_to_int32 b0 b1 b2 b3) = [b0, b1, b2, b3] := by
  constructor
  · rw [decode_encode _ (toPattern_lt v), toSigned_toPattern v hv1 hv2]
  · exact encode_decode b0 b1 b2 b3 h0 h1 h2 h3

theorem c10_witness :
    toSigned (msg_to_int32_list (int32_to_msg (toPattern (-5)))) = -5 ∧
    int32_to_msg (msg_to_int32 1 2 3 4) = [1, 2, 3, 4] :=
  c10_int32_codec_roundtrip (-5) (by norm_num) (by norm_num) 1 2 3 4
    (by norm_num) (by norm_num) (by norm_num) (by norm_num)

/-- C1: request envelope round-trip.  For every `argc ≥ 1`, NUL-free CWD and
NUL-free argument strings, the encoded request decodes to the same `argc` and
the exact payload; the slot `change_argv` writes for index `i` points at a
string byte-equal to `argv[i]`; and the first NUL-terminated string of the
decoded buffer (the one handed to `chdir`) is byte-equal to the CWD. -/
theorem c1_envelope_roundtrip (cwd : List Nat) (argv : List (List Nat))
    (i : Nat) (hi : i < argv.length) (_hargc1 : 1 ≤ argv.length)
    (hargc2 : argv.length < 2 ^ 31)
    (hamnt : cwd.length + (argv.map List.length).sum + argv.length + 1 < 2 ^ 31)
    (hcwd : (0 : Nat) ∉ cwd) (hargv : ∀ a ∈ argv, (0 : Nat) ∉ a) :
    ipc_recv_msg (client_message cwd argv) =
      some (argv.length, payloadOf cwd argv) ∧
    (change_argv argv.length (payloadOf cwd argv)).length = argv.length ∧
    stringAt (payloadOf cwd argv)
      ((change_argv argv.length (payloadOf cwd argv)).getD i 0) =
      argv.getD i [] ∧
    stringAt (payloadOf cwd argv) 0 = cwd := by
  refine ⟨ipc_recv_client cwd argv hargc2 hamnt, ?_, ?_, ?_⟩
  · rw [change_argv_spec cwd argv hcwd hargv, startsList_length]
  · rw [change_argv_spec cwd argv hcwd hargv]
    have key := stringAt_startsList argv (cwd ++ [0]) i hargv hi
    have hlen : (cwd ++ [0]).length = cwd.length + 1 := by simp
    rw [hlen, ← payloadOf_assoc] at key
    exact key
  · unfold stringAt
    rw [List.drop_zero]
    exact takeWhile_payload cwd argv hcwd

theorem c1_witness :
    ipc_recv_msg (client_message [47] [[97], [98, 99]]) =
      some (2, payloadOf [47] [[97], [98, 99]]) ∧
    (change_argv 2 (payloadOf [47] [[97], [98, 99]])).length = 2 ∧
    stringAt (payloadOf [47] [[97], [98, 99]])
      ((change_argv 2 (payloadOf [47] [[97], [98, 99]])).getD 1 0) =
      [[97], [98, 99]].getD 1 [] ∧
    stringAt (payloadOf [47] [[97], [98, 99]]) 0 = [47] :=
  c1_envelope_roundtrip [47] [[97], [98, 99]] 1 (by norm_num) (by norm_num)
    (by norm_num) (by norm_num) (by decide) (by decide)

/-- C8 as frozen is false on the TCP client: at `cwd = "/"`, `argv = ["a"]`
the `total_bytes` field written by `prepare_data` (src/client.c) decodes
to 4, the payload length alone, while the whole encoded message (header
included) is 12 bytes long. -/
theorem c8_counterexample :
    msg_to_int32_list ((client_message [47] [[97]]).drop 4) = 4 ∧
    (client_message [47] [[97]]).length = 12 := by decide

/-- C8 amended: the unix-socket client (src/preloader_cli.c) counts the 8
header bytes in `total_bytes` — the whole encoded message is exactly
`total_bytes` long and the `total_bytes - 8` bytes after the header are the
payload; the TCP client (src/client.c) instead writes only the payload
length, and its receiver `ipc_recv_msg` (src/ipc.c) reads exactly
`total_bytes` bytes after the header, obtaining exactly the
`CWD NUL argv... NUL` payload. -/
theorem c8_total_bytes (cwd : List Nat) (argv : List (List Nat))
    (hargc : argv.length < 2 ^ 31)
    (hamnt : cwd.length + (argv.map List.length).sum + argv.length + 9 < 2 ^ 31) :
    (cli_message cwd argv).length = cli_amnt cwd argv ∧
    msg_to_int32_list ((cli_message cwd argv).drop 4) = cli_amnt cwd argv ∧
    ((cli_message cwd argv).drop 8).take (cli_amnt cwd argv - 8) =
      payloadOf cwd argv ∧
    msg_to_int32_list ((client_message cwd argv).drop 4) = client_amnt cwd argv ∧
    client_amnt cwd argv = (payloadOf cwd argv).length ∧
    ipc_recv_msg (client_message cwd argv) =
      some (argv.length, payloadOf cwd argv) := by
  have hcli : cli_amnt cwd argv =
      cwd.length + (argv.map List.length).sum + argv.length + 9 := by
    unfold cli_amnt
    omega
  have hcl : client_amnt cwd argv =
      cwd.length + (argv.map List.length).sum + argv.length + 1 := by
    unfold client_amnt
    omega
  have hplen := payloadOf_length cwd argv
  refine ⟨?_, ?_, ?_, ?_, ?_, ipc_recv_client cwd argv hargc (by omega)⟩
  · unfold cli_message
    simp only [List.length_append, int32_to_msg_length, hplen]
    omega
  · unfold cli_message
    rw [List.append_assoc, ← int32_to_msg_length (argv.length % 2 ^ 32),
      List.drop_left, decode_encode_prefix _ _ (by unfold cli_amnt; omega)]
  · unfold cli_message
    have h8 : (int32_to_msg (argv.length % 2 ^ 32) ++
        int32_to_msg (cli_amnt cwd argv)).length = 8 := by
      simp [int32_to_msg_length]
    rw [← h8, List.drop_left, List.take_of_length_le (by omega)]
  · unfold client_message
    rw [List.append_assoc, ← int32_to_msg_length (argv.length % 2 ^ 32),
      List.drop_left, decode_encode_prefix _ _ (by unfold client_amnt; omega)]
  · omega

theorem c8_witness :
    (cli_message [47] [[97]]).length = cli_amnt [47] [[97]] ∧
    msg_to_int32_list ((cli_message [47] [[97]]).drop 4) = cli_amnt [47] [[97]] ∧
    ((cli_message [47] [[97]]).drop 8).take (cli_amnt [47] [[97]] - 8) =
      payloadOf [47] [[97]] ∧
    msg_to_int32_list ((client_message [47] [[97]]).drop 4) =
      client_amnt [47] [[97]] ∧
    client_amnt [47] [[97]] = (payloadOf [47] [[97]]).length ∧
    ipc_recv_msg (client_message [47] [[97]]) =
      some ([[97]].length, payloadOf [47] [[97]]) :=
  c8_total_bytes [47] [[97]] (by norm_num) (by norm_num)

/-- C2: exit-status translation.  For every deliverable wait status, the
code the reaper sends equals `WEXITSTATUS` on a normal exit, `128 +` the
terminating signal on a signal death, and 1 in every other case. -/
theorem c2_status_translation (e : ChildEvent) (h : validEvent e) :
    reaper_status (kernel_status e) = spec_status e := by
  cases e with
  | exited c =>
    have h1 : (c % 256 * 256) % 128 = 0 := by omega
    simp only [kernel_status, spec_status, reaper_status, wIFEXITED,
      wEXITSTATUS, h1]
    norm_num
  | signaled g core =>
    have hg : 1 ≤ g ∧ g ≤ 64 := h
    have h1 : (g + (if core then 128 else 0)) % 128 = g := by
      cases core <;> simp <;> omega
    simp only [kernel_status, spec_status, reaper_status, wIFEXITED,
      wIFSIGNALED_eq, wTERMSIG, h1]
    have h2 : ¬ (g == 0) = true := by
      simp
      omega
    have h3 : (decide (1 ≤ g) && decide (g ≤ 126)) = true := by
      simp
      omega
    rw [if_neg h2, if_pos h3]
    omega
  | stopped g =>
    have h1 : (g % 256 * 256 + 127) % 128 = 127 := by omega
    simp only [kernel_status, spec_status, reaper_status, wIFEXITED,
      wIFSIGNALED_eq, h1]
    norm_num
  | continued =>
    simp only [kernel_status, spec_status, reaper_status, wIFEXITED,
      wIFSIGNALED_eq]
    norm_num

theorem c2_witness :
    reaper_status (kernel_status (ChildEvent.signaled 9 false)) =
      spec_status (ChildEvent.signaled 9 false) :=
  c2_status_translation (ChildEvent.signaled 9 false) (by norm_num [validEvent])

/-- C3: argc capacity check.  On re-entry the engine aborts exactly when the
original argc on the startup stack is strictly below the new argc; when the
original argc is at least the new one the abort branch is unreachable and
the engine writes the new argc into slot `IDX_ARGC` and rewrites argv via
`change_argv`. -/
theorem c3_argc_capacity (sp : List Int) (o n : Int) (a : Nat)
    (buf : List Nat) (ha : (a : Int) ≤ sp.getD 3 0) :
    (arch_validate_argc_dies o n = true ↔ o < n) ∧
    (∀ sp2 : List Int, ∀ a2 : Nat,
      pre_daemon_reentry sp2 a2 buf = none ↔ sp2.getD 3 0 < (a2 : Int)) ∧
    pre_daemon_reentry sp a buf =
      some (sp.set 3 (a : Int), change_argv a buf) := by
  refine ⟨by simp [arch_validate_argc_dies], ?_, ?_⟩
  · intro sp2 a2
    by_cases hc : sp2.getD 3 0 < (a2 : Int)
    · simp [pre_daemon_reentry, hc]
    · simp [pre_daemon_reentry, hc]
  · unfold pre_daemon_reentry
    rw [if_neg (by omega)]

theorem c3_witness :
    (arch_validate_argc_dies 2 3 = true ↔ (2 : Int) < 3) ∧
    (∀ sp2 : List Int, ∀ a2 : Nat,
      pre_daemon_reentry sp2 a2 [47, 0, 97, 0] = none ↔
        sp2.getD 3 0 < (a2 : Int)) ∧
    pre_daemon_reentry [0, 0, 0, 5] 1 [47, 0, 97, 0] =
      some ([0, 0, 0, 5].set 3 ((1 : Nat) : Int), change_argv 1 [47, 0, 97, 0]) :=
  c3_argc_capacity [0, 0, 0, 5] 2 3 1 [47, 0, 97, 0] (by norm_num)

/-- C4 fails on the code: at `p = 8191` (page size 4096, so `p` lies 1 byte
before the page end, well within `min_size = 14` bytes of it) `make_rwx`
protects a single page `[4096, 8192)`, which does not contain the stub bytes
`[8191, 8205)`. -/
theorem c4_make_rwx_gap :
    make_rwx_region 8191 14 4096 = (4096, 4096) ∧
    4096 + 4096 < 8191 + 14 ∧
    make_rwx_region 4100 14 4096 = (4096, 8192) := by decide

/-- C5: restore delta.  `arch_restore_start` copies the saved bytes back
over the entrypoint, and its return value is the stub size minus the
embedded address-word size: 12 on x86-64, 7 on i386, `12 - 4 = 8` on ARM32
and `16 - 8 = 8` on RISC-V — which in every case equals the offset of the
saved return address inside the stub, so subtracting it resumes control at
the host's first original instruction. -/
theorem c5_restore_delta (a : Arch) (mem bck : List Nat) (addr : Nat)
    (hb : bck.length = (patch a).length)
    (hm : addr + bck.length ≤ mem.length) :
    ((arch_restore_start a mem addr bck).1.drop addr).take bck.length = bck ∧
    (arch_restore_start Arch.x86_64 mem addr bck).2 = 12 ∧
    (arch_restore_start Arch.i386 mem addr bck).2 = 7 ∧
    (arch_restore_start Arch.arm mem addr bck).2 = 12 - 4 ∧
    (arch_restore_start Arch.riscv mem addr bck).2 = 16 - 8 ∧
    addr + link_offset a - (arch_restore_start a mem addr bck).2 = addr := by
  refine ⟨?_, rfl, rfl, rfl, rfl, ?_⟩
  · show ((memWrite mem addr bck).drop addr).take bck.length = bck
    unfold memWrite
    have htk : (mem.take addr).length = addr :=
      List.length_take_of_le (by omega)
    rw [List.append_assoc, List.drop_left' htk, List.take_left]
  · cases a <;> simp [arch_restore_start, link_offset, patch, embedded_word]

theorem c5_witness :
    ((arch_restore_start Arch.arm (List.range 20) 2
        [9, 9, 9, 9, 9, 9, 9, 9, 9, 9, 9, 9]).1.drop 2).take
        ([9, 9, 9, 9, 9, 9, 9, 9, 9, 9, 9, 9] : List Nat).length =
      [9, 9, 9, 9, 9, 9, 9, 9, 9, 9, 9, 9] ∧
    (arch_restore_start Arch.x86_64 (List.range 20) 2
        [9, 9, 9, 9, 9, 9, 9, 9, 9, 9, 9, 9]).2 = 12 ∧
    (arch_restore_start Arch.i386 (List.range 20) 2
        [9, 9, 9, 9, 9, 9, 9, 9, 9, 9, 9, 9]).2 = 7 ∧
    (arch_restore_start Arch.arm (List.range 20) 2
        [9, 9, 9, 9, 9, 9, 9, 9, 9, 9, 9, 9]).2 = 12 - 4 ∧
    (arch_restore_start Arch.riscv (List.range 20) 2
        [9, 9, 9, 9, 9, 9, 9, 9, 9, 9, 9, 9]).2 = 16 - 8 ∧
    2 + link_offset Arch.arm - (arch_restore_start Arch.arm (List.range 20) 2
        [9, 9, 9, 9, 9, 9, 9, 9, 9, 9, 9, 9]).2 = 2 :=
  c5_restore_delta Arch.arm (List.range 20) [9, 9, 9, 9, 9, 9, 9, 9, 9, 9, 9, 9]
    2 (by decide) (by decide)

/-- C7 fails on the code: growing a full 2-slot list with live records
`(fd 10, pid 100)`, `(fd 11, pid 101)` and registering `(pid 200, fd 12)`
leaves the indeterminate realloc contents in the last new slot
(`fd = 8 ≠ -1`) and clears the live record in slot 0 (`fd` becomes `-1`):
the clearing loop of `increase_buffer` writes `c->fd = -1`, i.e. slot 0,
on every iteration instead of clearing the new slots. -/
theorem c7_increase_buffer_clobbers :
    reaper_add_child ⟨2, 2, [⟨10, 100⟩, ⟨11, 101⟩]⟩ [⟨7, 99⟩, ⟨8, 98⟩] 200 12 =
      ⟨4, 3, [⟨-1, 100⟩, ⟨11, 101⟩, ⟨12, 200⟩, ⟨8, 98⟩]⟩ ∧
    ((reaper_add_child ⟨2, 2, [⟨10, 100⟩, ⟨11, 101⟩]⟩ [⟨7, 99⟩, ⟨8, 98⟩]
        200 12).c.getD 3 ⟨0, 0⟩).fd ≠ -1 ∧
    ((reaper_add_child ⟨2, 2, [⟨10, 100⟩, ⟨11, 101⟩]⟩ [⟨7, 99⟩, ⟨8, 98⟩]
        200 12).c.getD 0 ⟨0, 0⟩).fd = -1 := by decide

/-- C6 fails as frozen: the code reads at most 16 bytes (`char buff[16]`).
A 17-byte pid file `"0000000000001234X"` whose 17th byte is not a digit (so
its entire content does not parse as decimal digits, and the claim demands
unlink-and-proceed) still makes `read_and_check_pid` decline when pid 1234
is alive, because only the first 16 bytes — all digits — are examined. -/
theorem c6_counterexample :
    read_and_check_pid
        (some (some [48, 48, 48, 48, 48, 48, 48, 48, 48, 48, 48, 48,
          49, 50, 51, 52, 88])) (fun p => p == 1234) = PidAction.decline ∧
    ([48, 48, 48, 48, 48, 48, 48, 48, 48, 48, 48, 48,
      49, 50, 51, 52, 88].all isdigitByte) = false := by decide

/-- C6 amended: init declines to run exactly when the pid file exists and
the portion of its content that fits the 16-byte read buffer (its first
`min(16, size)` bytes) parses strictly as decimal digits whose value names a
pid that signal 0 reaches; in every other existing-file case (unreadable
content, a non-digit among the read bytes, or a dead pid) the pid file is
unlinked and init proceeds; a missing file also proceeds; and `my_init`
writes the pid file exactly when the check did not decline. -/
theorem c6_pid_singleton (content : Option (Option (List Nat)))
    (alive : Nat → Bool) (bytes : List Nat) :
    (read_and_check_pid (some (some bytes)) alive = PidAction.decline ↔
      ((bytes.take 16).all isdigitByte = true ∧
        alive (parsePidDigits (bytes.take 16)) = true)) ∧
    (read_and_check_pid (some (some bytes)) alive ≠ PidAction.decline →
      read_and_check_pid (some (some bytes)) alive = PidAction.unlinkProceed) ∧
    read_and_check_pid (some none) alive = PidAction.unlinkProceed ∧
    read_and_check_pid none alive = PidAction.proceed ∧
    (my_init_writes_pid content alive = true ↔
      read_and_check_pid content alive ≠ PidAction.decline) := by
  refine ⟨?_, ?_, rfl, rfl, ?_⟩
  · by_cases hd : (bytes.take 16).all isdigitByte = true
    · by_cases ha : alive (parsePidDigits (bytes.take 16)) = true
      · simp [read_and_check_pid, hd, ha]
      · simp [read_and_check_pid, hd, ha]
    · simp [read_and_check_pid, hd]
  · by_cases hd : (bytes.take 16).all isdigitByte = true
    · by_cases ha : alive (parsePidDigits (bytes.take 16)) = true
      · simp [read_and_check_pid, hd, ha]
      · simp [read_and_check_pid, hd, ha]
    · simp [read_and_check_pid, hd]
  · simp [my_init_writes_pid]

theorem c6_witness :
    read_and_check_pid (some (some [49, 50])) (fun p => p == 12) =
      PidAction.decline :=
  (c6_pid_singleton (some (some [49, 50])) (fun p => p == 12) [49, 50]).1.mpr
    (by decide)

theorem str2int_eq_spec (s : List Nat) (v : Int) :
    str2int s = some v ↔
      (spec_decimal s = some v ∧ -2147483648 ≤ v ∧ v ≤ 2147483647) := by
  cases s with
  | nil => simp [str2int, spec_decimal, signSplit]
  | cons c r =>
    by_cases hsp : isspaceByte c = true
    · have hc : c = 32 ∨ (9 ≤ c ∧ c ≤ 13) := by
        simpa [isspaceByte] using hsp
      have h45 : ¬ (c = 45) := by omega
      have h43 : ¬ (c = 43) := by omega
      have hdig : isdigitByte c = false := by
        simp only [isdigitByte, Bool.and_eq_false_imp, decide_eq_true_eq,
          decide_eq_false_iff_not]
        omega
      simp [str2int, hsp, spec_decimal, signSplit, h45, h43, hdig]
    · have hdw : (c :: r).dropWhile isspaceByte = c :: r := by
        simp [List.dropWhile_cons, hsp]
      rcases hsg : signSplit (c :: r) with ⟨neg, d⟩
      have hst : strtol10 (c :: r) =
          (if (d.takeWhile isdigitByte).isEmpty = true then ((0 : Int), c :: r)
           else ((if neg = true then -digitsValue (d.takeWhile isdigitByte)
              else digitsValue (d.takeWhile isdigitByte)),
             d.dropWhile isdigitByte)) := by
        simp only [strtol10, hdw, hsg]
      have hns : ¬ (c :: r = [] ∨ isspaceByte ((c :: r).headD 0) = true) := by
        simp [hsp]
      have hspec : spec_decimal (c :: r) =
          (if d ≠ [] ∧ d.all isdigitByte then
            some (if neg then -digitsValue d else digitsValue d)
          else none) := by
        simp only [spec_decimal, hsg]
      rw [hspec]
      simp only [str2int, if_neg hns, hst]
      by_cases hemp2 : (d.takeWhile isdigitByte).isEmpty = true
      · have hcond : ¬ (d ≠ [] ∧ d.all isdigitByte = true) := by
          rintro ⟨hne, hall⟩
          cases d with
          | nil => exact hne rfl
          | cons x xs =>
            have hx : isdigitByte x = true :=
              (List.all_eq_true.mp hall) x (by simp)
            simp [List.takeWhile_cons, hx] at hemp2
        rw [if_neg hcond, if_pos hemp2]
        dsimp only
        rw [if_neg (by norm_num : ¬ ((0 : Int) > 2147483647)),
          if_neg (by norm_num : ¬ ((0 : Int) < -2147483648)),
          if_pos (by simp : (c :: r : List Nat) ≠ [])]
        simp
      · rw [if_neg hemp2]
        dsimp only
        by_cases hemp : d.dropWhile isdigitByte = []
        · have hall : ∀ x ∈ d, isdigitByte x :=
            List.dropWhile_eq_nil_iff.mp hemp
          have htw : d.takeWhile isdigitByte = d :=
            List.takeWhile_eq_self_iff.mpr hall
          have hde : d ≠ [] := by
            intro h0
            subst h0
            simp at hemp2
          have hcond : d ≠ [] ∧ d.all isdigitByte = true :=
            ⟨hde, by simpa [List.all_eq_true] using hall⟩
          rw [if_pos hcond, htw, hemp,
            if_neg (by simp : ¬ (([] : List Nat) ≠ []))]
          set w : Int := if neg = true then -digitsValue d else digitsValue d
            with hw
          by_cases h1 : w > 2147483647
          · rw [if_pos h1]
            constructor
            · intro hfalse
              exact Option.noConfusion hfalse
            · rintro ⟨hv, _, hv2⟩
              have hwv : w = v := Option.some.inj hv
              omega
          · rw [if_neg h1]
            by_cases h2 : w < -2147483648
            · rw [if_pos h2]
              constructor
              · intro hfalse
                exact Option.noConfusion hfalse
              · rintro ⟨hv, hv1, _⟩
                have hwv : w = v := Option.some.inj hv
                omega
            · rw [if_neg h2]
              constructor
              · intro hv
                have hwv : w = v := Option.some.inj hv
                subst hwv
                exact ⟨rfl, by omega, by omega⟩
              · rintro ⟨hv, _, _⟩
                exact hv
        · have hallfalse : ¬ (d.all isdigitByte = true) := by
            intro hall
            refine hemp (List.dropWhile_eq_nil_iff.mpr ?_)
            simpa [List.all_eq_true] using hall
          have hcondfail : ¬ (d ≠ [] ∧ d.all isdigitByte = true) := by
            rintro ⟨_, h⟩
            exact hallfalse h
          rw [if_neg hcondfail]
          have hlhs : ∀ w : Int,
              (if w > 2147483647 then none
               else if w < -2147483648 then none
               else if d.dropWhile isdigitByte ≠ [] then none
               else some w) = (none : Option Int) := by
            intro w
            by_cases h1 : w > 2147483647
            · rw [if_pos h1]
            · rw [if_neg h1]
              by_cases h2 : w < -2147483648
              · rw [if_pos h2]
              · rw [if_neg h2, if_pos hemp]
          rw [hlhs]
          simp

/-- C9: port configuration.  With `PRELOADER_PORT` unset the port is 3636;
with it set, init proceeds exactly when the value is a decimal integer — an
optional sign and digits with no leading whitespace, no trailing characters
and no overflow — whose value lies in `[0, 65535]`; every other set value
dies. -/
theorem c9_port_config (s : List Nat) (v : Int) :
    parse_port none = some 3636 ∧
    (parse_port (some s) = some v ↔
      (spec_decimal s = some v ∧ 0 ≤ v ∧ v ≤ 65535)) := by
  refine ⟨rfl, ?_⟩
  simp only [parse_port]
  cases hs : str2int s with
  | none =>
    constructor
    · intro h
      exact Option.noConfusion h
    · rintro ⟨h1, h2, h3⟩
      have hcontra := (str2int_eq_spec s v).mpr ⟨h1, by omega, by omega⟩
      rw [hs] at hcontra
      exact Option.noConfusion hcontra
  | some w =>
    dsimp only
    have hsp := (str2int_eq_spec s w).mp hs
    by_cases hr : w < 0 ∨ w > 65535
    · rw [if_pos hr]
      constructor
      · intro h
        exact Option.noConfusion h
      · rintro ⟨h1, h2, h3⟩
        have heq : str2int s = some v := (str2int_eq_spec s v).mpr
          ⟨h1, by omega, by omega⟩
        rw [hs] at heq
        have hwv : w = v := Option.some.inj heq
        omega
    · rw [if_neg hr]
      constructor
      · intro h
        have hwv : w = v := Option.some.inj h
        subst hwv
        exact ⟨hsp.1, by omega, by omega⟩
      · rintro ⟨h1, h2, h3⟩
        have heq : str2int s = some v := (str2int_eq_spec s v).mpr
          ⟨h1, by omega, by omega⟩
        rw [hs] at heq
        have hwv : w = v := Option.some.inj heq
        rw [hwv]

end Preloader
